import Mathlib

/-!
Verification of the DSL structural engine of the `reports` repository:
token resolution (`src/pre_process/arg.rs`), scope-tree rendering with
field inheritance (`src/pre_process/tree.rs`), and cross-section table
building (`src/functions/table.rs`).

Parts of the repository that the sources reference but that are not
available under `src/` (`pre_process/block.rs`, `pre_process/flatten.rs`,
`parser.rs`, `functions/display.rs`) are modelled from the specification;
each such definition carries a doc comment starting `Modelled from the
spec:`.  The external registries (command / function / data-series-name
vocabularies) and the external parsers and the calculation engine are,
per the spec (§6), opaque collaborators: they are threaded through as an
explicit environment value.
-/

namespace Reports

/-- Modelled from the spec: the `TimeFrequency` enum of `time_span.rs`
(not under `src/`); the spec and tests name Daily, Weekly, Monthly,
Quarterly and Yearly frequencies. -/
inductive TimeFrequency where
  | daily
  | weekly
  | monthly
  | quarterly
  | yearly
deriving DecidableEq, Repr

/-- Modelled from the spec: `Display for TimeFrequency`, printing the
variant name as seen in the table test fixtures ("Weekly", "Quarterly"). -/
def TimeFrequency.toStr : TimeFrequency → String
  | .daily => "Daily"
  | .weekly => "Weekly"
  | .monthly => "Monthly"
  | .quarterly => "Quarterly"
  | .yearly => "Yearly"

/-- Embeds `chrono::NaiveDate` as a plain year/month/day record. -/
structure NaiveDate where
  year : Int
  month : Nat
  day : Nat
deriving DecidableEq, Repr

/-- Two-digit zero padding used by the `%m` and `%d` date format fields. -/
def pad2 (n : Nat) : String :=
  if n < 10 then "0" ++ toString n else toString n

/-- Embeds `date.format("%Y-%m-%d")` from the `Display for Arg` impl in
`src/pre_process/arg.rs`. -/
def NaiveDate.format (d : NaiveDate) : String :=
  toString d.year ++ "-" ++ pad2 d.month ++ "-" ++ pad2 d.day

/-- Modelled from the spec: the `RenderContext` display-style enum of
`functions/display.rs` (not under `src/`); `main.rs` uses the `Words`
variant, and a numeric style is the evident second member. -/
inductive RenderContext where
  | words
  | numbers
deriving DecidableEq, Repr

/-- Modelled from the spec: `Display for RenderContext`. -/
def RenderContext.toStr : RenderContext → String
  | .words => "Words"
  | .numbers => "Numbers"

/-- Embeds the `Arg` enum of `src/pre_process/arg.rs`: the closed union of
typed argument variants.  `command` and `dataName` hold registry keys,
`function` holds a registry value, mirroring which string each Rust
constructor stores. -/
inductive Arg where
  | command (s : String)
  | function (s : String)
  | timeFrequency (f : TimeFrequency)
  | dataName (s : String)
  | date (d : NaiveDate)
  | renderContext (rc : RenderContext)
deriving DecidableEq, Repr

/-- `functions/table.rs` names its axis element type `ExpressionVariable`;
it carries the same closed union of variants as `Arg`. -/
abbrev ExpressionVariable := Arg

/-- Embeds the `Expression` selection record of `pre_process/block.rs`
(its five field names `command`, `frequency`, `data_name`, `date`,
`display_type` are pinned by their uses in `src/pre_process/tree.rs`). -/
structure Expression where
  command : Option String := none
  frequency : Option TimeFrequency := none
  data_name : Option String := none
  date : Option NaiveDate := none
  display_type : Option RenderContext := none
deriving DecidableEq, Repr

/-- Embeds `Expression::new()`: the selection with every field unset. -/
def Expression.new : Expression := {}

/-- The external environment of the core (spec §6): the closed registries
(`COMMANDS`, `FUNCTIONS`, `DATA_NAMES` of `pre_process/block.rs`,
modelled as association lists from key to displayed value), the external
parsers for frequency, date and display-style tokens, and the external
calculation engine (`Command::try_from` followed by `String::try_from`),
modelled as one fallible call per selection. -/
structure Env where
  commands : List (String × String)
  functions : List (String × String)
  dataNames : List (String × String)
  parseFrequency : String → Option TimeFrequency
  parseDate : String → Option NaiveDate
  parseDisplay : String → Option RenderContext
  evaluate : Expression → Option String

/-- Association-list lookup by key, embedding `HashMap::get` on the
registries. -/
def lookupReg (l : List (String × String)) (k : String) : Option String :=
  (l.find? (fun p => p.1 == k)).map (fun p => p.2)

/-- Embeds `Arg::try_new_command`: find the key equal to `s` among the
command registry's keys and store that key. -/
def Arg.try_new_command (env : Env) (s : String) : Option Arg :=
  (env.commands.find? (fun p => p.1 == s)).map (fun p => Arg.command p.1)

/-- Embeds `Arg::try_new_function`: look `s` up in the function registry
and store the registry's value. -/
def Arg.try_new_function (env : Env) (s : String) : Option Arg :=
  (lookupReg env.functions s).map Arg.function

/-- Embeds `Arg::try_new_time_frequency`: defer to the external
frequency parser. -/
def Arg.try_new_time_frequency (env : Env) (s : String) : Option Arg :=
  (env.parseFrequency s).map Arg.timeFrequency

/-- Embeds `Arg::try_new_data_name`: find the key equal to `s` among the
data-name registry's keys and store that key. -/
def Arg.try_new_data_name (env : Env) (s : String) : Option Arg :=
  (env.dataNames.find? (fun p => p.1 == s)).map (fun p => Arg.dataName p.1)

/-- Embeds `Arg::try_new_date`: defer to `parser::parse_date`. -/
def Arg.try_new_date (env : Env) (s : String) : Option Arg :=
  (env.parseDate s).map Arg.date

/-- Embeds `Arg::try_new_render_context`: defer to the external
display-style parser. -/
def Arg.try_new_render_context (env : Env) (s : String) : Option Arg :=
  (env.parseDisplay s).map Arg.renderContext

/-- The error taxonomy of token resolution (spec §7). -/
inductive ArgError where
  | unknownLabel (name : String)
  | invalidValue (name : String) (raw : String)
  | unresolvedToken (raw : String)
deriving DecidableEq, Repr

/-- Embeds the loop body of `impl FromStr for Arg` in
`src/pre_process/arg.rs`: try each variant constructor in declared order
and return the first success; if all six fail, error. -/
def Arg.fromStr (env : Env) (s : String) : Except ArgError Arg :=
  match (Arg.try_new_command env s).orElse (fun _ =>
        (Arg.try_new_function env s).orElse (fun _ =>
        (Arg.try_new_time_frequency env s).orElse (fun _ =>
        (Arg.try_new_data_name env s).orElse (fun _ =>
        (Arg.try_new_date env s).orElse (fun _ =>
         Arg.try_new_render_context env s))))) with
  | some a => .ok a
  | none => .error (.unresolvedToken s)

/-- Embeds the `match name` dispatch inside `Arg::from_labelled_str`:
`none` means the label is unrecognized, `some o` is the chosen
constructor's result. -/
def Arg.ctorFor (env : Env) (name : String) (s : String) : Option (Option Arg) :=
  if name = "command" then some (Arg.try_new_command env s)
  else if name = "function" then some (Arg.try_new_function env s)
  else if name = "frequency" then some (Arg.try_new_time_frequency env s)
  else if name = "name" then some (Arg.try_new_data_name env s)
  else if name = "date" then some (Arg.try_new_date env s)
  else if name = "display" then some (Arg.try_new_render_context env s)
  else none

/-- Embeds `Arg::from_labelled_str` of `src/pre_process/arg.rs`: an
unrecognized label is `Unknown arg type` (UnknownLabel); a recognized
label whose constructor rejects the raw value is
`Named arg of type .. is unknown` (InvalidValue). -/
def Arg.from_labelled_str (env : Env) (name : String) (s : String) :
    Except ArgError Arg :=
  match Arg.ctorFor env name s with
  | none => .error (.unknownLabel name)
  | some none => .error (.invalidValue name s)
  | some (some a) => .ok a

/-- Embeds `impl Display for Arg` of `src/pre_process/arg.rs`; the Rust
code panics ("Failed to Display Arg") when the registry lookup comes back
empty, which the embedding records as `none`. -/
def Arg.display (env : Env) : Arg → Option String
  | .command c => lookupReg env.commands c
  | .function f => some f
  | .timeFrequency f => some f.toStr
  | .dataName n => lookupReg env.dataNames n
  | .date d => some d.format
  | .renderContext rc => some rc.toStr

/-- Modelled from the spec: `Expression::fill_arg` of
`pre_process/block.rs` (not under `src/`), the "fill if unset"
application of one argument to a selection (spec §3 set-once invariant,
§4.2 step 3).  The selection has no field for the `function` variant, so
that variant leaves it unchanged. -/
def Expression.fill_arg (e : Expression) (a : Arg) : Expression :=
  match a with
  | .command c =>
      if e.command.isNone then { e with command := some c } else e
  | .function _ => e
  | .timeFrequency f =>
      if e.frequency.isNone then { e with frequency := some f } else e
  | .dataName n =>
      if e.data_name.isNone then { e with data_name := some n } else e
  | .date d =>
      if e.date.isNone then { e with date := some d } else e
  | .renderContext rc =>
      if e.display_type.isNone then { e with display_type := some rc } else e

/-- Modelled from the spec: the `⊕` merge of `&Expression +
ExpressionVariable` used by `functions/table.rs` — "`⊕` sets a field only
if unset in the left operand" (spec §3), the same per-field rule as
`fill_arg`. -/
def Expression.addVar (e : Expression) (v : ExpressionVariable) : Expression :=
  e.fill_arg v

/-- Embeds the inheritance pass at the top of `impl Component for Node`
(`src/pre_process/tree.rs` lines 38–62): for each of the five fields, if
the node's own value leaves it unset and the ambient context has it set,
copy it down. -/
def Expression.inheritFrom (v ctx : Expression) : Expression :=
  let v := match v.command with
    | none => (match ctx.command with
               | some c => { v with command := some c }
               | none => v)
    | some _ => v
  let v := match v.frequency with
    | none => (match ctx.frequency with
               | some f => { v with frequency := some f }
               | none => v)
    | some _ => v
  let v := match v.data_name with
    | none => (match ctx.data_name with
               | some n => { v with data_name := some n }
               | none => v)
    | some _ => v
  let v := match v.date with
    | none => (match ctx.date with
               | some d => { v with date := some d }
               | none => v)
    | some _ => v
  let v := match v.display_type with
    | none => (match ctx.display_type with
               | some t => { v with display_type := some t }
               | none => v)
    | some _ => v
  v

/-- Embeds the `ArgGroup` enum of `src/pre_process/arg.rs`. -/
inductive ArgGroup where
  | arg (a : Arg)
  | collection (args : List Arg)
  | namedCollection (name : String) (args : List Arg)
deriving DecidableEq, Repr

/-- Modelled from the spec: one expansion axis of the Combinatorial
Expander — an optional correlation name together with the ordered choices
(each choice is the tuple of arguments that axis contributes to one
combination).  Bare single arguments become one-choice axes, so they
apply identically to every produced combination (spec §4.2 step 1). -/
def addGroupAxis (axes : List (Option String × List (List Arg)))
    (g : ArgGroup) : List (Option String × List (List Arg)) :=
  match g with
  | .arg a => axes ++ [(none, [[a]])]
  | .collection args => axes ++ [(none, args.map (fun a => [a]))]
  | .namedCollection n args =>
      if axes.any (fun ax => ax.1 = some n) then
        axes.map (fun ax =>
          if ax.1 = some n then
            (ax.1, List.zipWith (fun t a => t ++ [a]) ax.2 args)
          else ax)
      else axes ++ [(some n, args.map (fun a => [a]))]

/-- Modelled from the spec: the cross product across distinct axes,
lexicographic in declared order (spec §4.2 step 2). -/
def crossAxes : List (List (List Arg)) → List (List Arg)
  | [] => [[]]
  | axis :: rest => axis.flatMap (fun choice => (crossAxes rest).map (choice ++ ·))

/-- Modelled from the spec: the Combinatorial Expander `mutate` of
`pre_process/flatten.rs` (not under `src/`).  Spec §4.2: bare single
arguments apply to every combination, collections branch, collections
sharing the same name are bound together element-wise rather than
multiplied, and combination order is lexicographic in declared order. -/
def mutate (groups : List ArgGroup) : List (List Arg) :=
  crossAxes ((groups.foldl addGroupAxis []).map Prod.snd)

/-- Embeds the shared fold of `Function::try_new_expression` and
`Clause::to_component` (`src/pre_process/arg.rs`): expand the groups and
fold each combination into a fresh selection via `fill_arg`, in order. -/
def expressionsOfGroups (groups : List ArgGroup) : List Expression :=
  (mutate groups).map (fun args => args.foldl Expression.fill_arg Expression.new)

/-- Embeds the `Table` struct of `src/functions/table.rs`: two axes of
`ExpressionVariable`s plus one shared base selection. -/
structure Table where
  rows : List ExpressionVariable
  cols : List ExpressionVariable
  ctx : Expression
deriving DecidableEq, Repr

/-- Embeds the per-cell context of `TryFrom<Table> for String`
(`src/functions/table.rs` lines 39 and 43): the base context merged with
the row variable first, then with the column variable. -/
def Table.cellCtx (t : Table) (row col : ExpressionVariable) : Expression :=
  (t.ctx.addVar row).addVar col

/-- Concatenation of a list of strings in order, embedding the
successive `push_str` calls of the table builder and node renderer. -/
def joinAll : List String → String
  | [] => ""
  | s :: l => s ++ joinAll l

/-- Fallible map over a list, embedding
`collect::<Result<Vec<_>>>` / the `?`-driven early abort: the result is
`none` as soon as any element fails. -/
def mapO (f : α → Option β) : List α → Option (List β)
  | [] => some []
  | a :: as =>
      match f a, mapO f as with
      | some b, some bs => some (b :: bs)
      | _, _ => none

/-- Embeds one body row of `TryFrom<Table> for String`: the row heading
followed by one cell per column, each cell computed by the calculation
engine under `Table.cellCtx`. -/
def tableRow (env : Env) (t : Table) (row : ExpressionVariable) : Option String :=
  match Arg.display env row,
        mapO (fun col => (env.evaluate (t.cellCtx row col)).map
                (fun s => " " ++ s ++ " |")) t.cols with
  | some rh, some cells => some ("\n| " ++ rh ++ " |" ++ joinAll cells)
  | _, _ => none

/-- Embeds `impl TryFrom<Table> for String` of `src/functions/table.rs`:
a corner cell and one header cell per column, a separator row of
`cols.len() + 1` cells, then one body row per row-axis entry; any
failure aborts the whole render. -/
def tableTryFrom (env : Env) (t : Table) : Option String :=
  match mapO (fun c => (Arg.display env c).map (fun s => " " ++ s ++ " |")) t.cols with
  | none => none
  | some heads =>
      match mapO (tableRow env t) t.rows with
      | none => none
      | some rowStrs =>
          some ("\n| _ |" ++ joinAll heads
            ++ "\n|" ++ joinAll (List.replicate (t.cols.length + 1) " --- |")
            ++ joinAll rowStrs ++ "\n")

/-- Modelled from the spec: `find_table` of `pre_process/flatten.rs`
(not under `src/`).  The spec leaves the axis-correlation surface syntax
open (§9); modelled as: the first named collection supplies the row
axis, the second the column axis, and bare arguments fill the base
selection. -/
def find_table (groups : List ArgGroup) : Option Table :=
  let named := groups.filterMap (fun g =>
    match g with | .namedCollection _ args => some args | _ => none)
  let base := (groups.filterMap (fun g =>
    match g with | .arg a => some a | _ => none)).foldl
      Expression.fill_arg Expression.new
  match named with
  | rows :: cols :: _ => some ⟨rows, cols, base⟩
  | _ => none

/-- Embeds the `Function` enum of `src/pre_process/arg.rs`. -/
inductive Function where
  | expressions (es : List Expression)
  | table (t : Table)
deriving DecidableEq, Repr

/-- Embeds `Function::try_new_expression`: expand the groups and fold
each combination into a selection (always succeeds). -/
def Function.try_new_expression (groups : List ArgGroup) : Option Function :=
  some (.expressions (expressionsOfGroups groups))

/-- Embeds `Function::try_new_table`. -/
def Function.try_new_table (groups : List ArgGroup) : Option Function :=
  (find_table groups).map .table

/-- Embeds `Function::from_groups`: an unlabelled group list is assumed
to be an expression. -/
def Function.from_groups (groups : List ArgGroup) : Option Function :=
  Function.try_new_expression groups

/-- Embeds `Function::from_labelled_groups`. -/
def Function.from_labelled_groups (name : String) (groups : List ArgGroup) :
    Option Function :=
  if name = "expression" then Function.try_new_expression groups
  else if name = "table" then Function.try_new_table groups
  else none

/-- Embeds the closed union of renderable components (spec §9 design
note): literal text (`Text` of `tree.rs`), a scope-tree node (`Node` of
`tree.rs`, owning its selection and children), and the two `Function`
leaves of `arg.rs`. -/
inductive Component where
  | text (s : String)
  | node (value : Expression) (children : List Component)
  | exprsFn (es : List Expression)
  | tableFn (t : Table)
deriving Repr

/-- Embeds the `Clause` enum of `src/pre_process/arg.rs`. -/
inductive Clause where
  | function (groups : List ArgGroup)
  | namedFunction (name : String) (groups : List ArgGroup)
  | block (groups : List ArgGroup) (clauses : List Clause)
  | text (s : String)
deriving Repr

/-- View of a `Function` value as a renderable component. -/
def Function.toComponent : Function → Component
  | .expressions es => .exprsFn es
  | .table t => .tableFn t

mutual

/-- Embeds `Clause::to_component` of `src/pre_process/arg.rs`.  A block
expands its own groups into selections, lowers every child clause once
into a shared base subtree, and replicates that subtree once per block
selection under a parent node with an empty selection (`with_expr`, not
under `src/`, replaces the replica's value by the block selection). -/
def Clause.to_component : Clause → Option Component
  | .function groups => (Function.from_groups groups).map Function.toComponent
  | .namedFunction name groups =>
      (Function.from_labelled_groups name groups).map Function.toComponent
  | .block groups clauses =>
      match Clause.to_components clauses with
      | none => none
      | some children =>
          some (.node Expression.new
            ((expressionsOfGroups groups).map (fun e => .node e children)))
  | .text s => some (.text s)

/-- Embeds the `try_fold` over child clauses inside
`Clause::to_component`: lower each child in order, aborting on the first
failure. -/
def Clause.to_components : List Clause → Option (List Component)
  | [] => some []
  | c :: cs =>
      match Clause.to_component c, Clause.to_components cs with
      | some x, some xs => some (x :: xs)
      | _, _ => none

end

/-- Modelled from the spec: `Expression::render` of
`pre_process/block.rs` (not under `src/`) — merge the ambient context
into the selection's unset fields and delegate to the external
calculation engine (spec §4.3, §6). -/
def Expression.renderWith (env : Env) (e ctx : Expression) : Option String :=
  env.evaluate (e.inheritFrom ctx)

mutual

/-- Embeds the render capability (`Component` trait): `Text` returns its
literal (`tree.rs` line 13); a `Node` first runs the inheritance pass on
its own selection, then renders its children in order under the enriched
selection, concatenating the results (`tree.rs` lines 37–69); the
expression leaf renders each selection and joins with a single space
(`arg.rs` lines 201–210); the table leaf delegates to the table-to-string
conversion (which carries its own base context).  The returned component
is the post-render state, since a node's inheritance pass mutates its
selection in place. -/
def renderC (env : Env) : Component → Expression → Option (Component × String)
  | .text s, _ => some (.text s, s)
  | .node v children, ctx =>
      match renderChildren env children (v.inheritFrom ctx) with
      | none => none
      | some (cs, s) => some (.node (v.inheritFrom ctx) cs, s)
  | .exprsFn es, ctx =>
      match mapO (fun e => e.renderWith env ctx) es with
      | none => none
      | some ss => some (.exprsFn es, String.intercalate " " ss)
  | .tableFn t, _ =>
      match tableTryFrom env t with
      | none => none
      | some s => some (.tableFn t, s)

/-- Embeds the child loop of `Node::render`: render each child in order
with the node's enriched selection as ambient context, pushing each
result onto the output string; the first failure aborts. -/
def renderChildren (env : Env) :
    List Component → Expression → Option (List Component × String)
  | [], _ => some ([], "")
  | c :: cs, ctx =>
      match renderC env c ctx with
      | none => none
      | some (c', s) =>
          match renderChildren env cs ctx with
          | none => none
          | some (cs', s') => some (c' :: cs', s ++ s')

end

/-- Embeds the `RawArgGroup` enum of `parser.rs` as used by
`src/pre_process/arg.rs`. -/
inductive RawArgGroup where
  | arg (s : String)
  | labelledArg (label : String) (s : String)
  | collection (args : List String)
  | namedCollection (name : String) (args : List String)
deriving DecidableEq, Repr

/-- Embeds the `RawClause` enum of `parser.rs` as used by
`src/pre_process/arg.rs`. -/
inductive RawClause where
  | function (groups : List RawArgGroup)
  | namedFunction (name : String) (groups : List RawArgGroup)
  | block (groups : List RawArgGroup) (clauses : List RawClause)
  | text (s : String)
deriving Repr

/-- Embeds `impl TryFrom<RawArgGroup> for ArgGroup` of
`src/pre_process/arg.rs`: bare tokens resolve via `FromStr`, labelled
tokens via `from_labelled_str`, and collection members resolve as bare
tokens, any failure aborting the group. -/
def ArgGroup.tryFrom (env : Env) : RawArgGroup → Option ArgGroup
  | .arg s => (Arg.fromStr env s).toOption.map .arg
  | .labelledArg label s => (Arg.from_labelled_str env label s).toOption.map .arg
  | .collection args =>
      (mapO (fun a => (Arg.fromStr env a).toOption) args).map .collection
  | .namedCollection n args =>
      (mapO (fun a => (Arg.fromStr env a).toOption) args).map (.namedCollection n)

mutual

/-- Embeds `impl TryFrom<RawClause> for Clause` of
`src/pre_process/arg.rs`: convert every argument group and (for blocks)
every child clause, the first failure aborting the whole clause. -/
def Clause.tryFrom (env : Env) : RawClause → Option Clause
  | .function groups => (mapO (ArgGroup.tryFrom env) groups).map .function
  | .namedFunction name groups =>
      (mapO (ArgGroup.tryFrom env) groups).map (.namedFunction name)
  | .block groups clauses =>
      match mapO (ArgGroup.tryFrom env) groups, Clause.tryFroms env clauses with
      | some gs, some cs => some (.block gs cs)
      | _, _ => none
  | .text s => some (.text s)

/-- Embeds the child-clause conversion loop of `TryFrom<RawClause>`. -/
def Clause.tryFroms (env : Env) : List RawClause → Option (List Clause)
  | [] => some []
  | c :: cs =>
      match Clause.tryFrom env c, Clause.tryFroms env cs with
      | some x, some xs => some (x :: xs)
      | _, _ => none

end

/-! ## Helper lemmas -/

theorem mapO_length {f : α → Option β} :
    ∀ {l : List α} {bs : List β}, mapO f l = some bs → bs.length = l.length := by
  intro l
  induction l with
  | nil => intro bs h; simp [mapO] at h; simp [← h]
  | cons a as ih =>
      intro bs h
      simp only [mapO] at h
      cases hfa : f a with
      | none => rw [hfa] at h; simp at h
      | some b =>
          rw [hfa] at h
          cases hrest : mapO f as with
          | none => rw [hrest] at h; simp at h
          | some bs' =>
              rw [hrest] at h
              simp at h
              subst h
              simp [ih hrest]

theorem mapO_none_of_mem {f : α → Option β} {l : List α} {a : α}
    (ha : a ∈ l) (hfa : f a = none) : mapO f l = none := by
  induction l with
  | nil => cases ha
  | cons x xs ih =>
      rcases List.mem_cons.mp ha with h | h
      · subst h; simp [mapO, hfa]
      · simp only [mapO, ih h]
        cases f x <;> rfl

theorem mapO_forall2 {f : α → Option β} :
    ∀ {l : List α} {bs : List β}, mapO f l = some bs →
      List.Forall₂ (fun a b => f a = some b) l bs := by
  intro l
  induction l with
  | nil => intro bs h; simp [mapO] at h; simp [← h]
  | cons a as ih =>
      intro bs h
      simp only [mapO] at h
      cases hfa : f a with
      | none => rw [hfa] at h; simp at h
      | some b =>
          rw [hfa] at h
          cases hrest : mapO f as with
          | none => rw [hrest] at h; simp at h
          | some bs' =>
              rw [hrest] at h
              simp at h
              subst h
              exact List.Forall₂.cons hfa (ih hrest)

/-- The inheritance pass computes, field by field, the node's own value
when set and otherwise the ambient value. -/
theorem inheritFrom_eq (v ctx : Expression) :
    v.inheritFrom ctx =
      { command := v.command.orElse (fun _ => ctx.command),
        frequency := v.frequency.orElse (fun _ => ctx.frequency),
        data_name := v.data_name.orElse (fun _ => ctx.data_name),
        date := v.date.orElse (fun _ => ctx.date),
        display_type := v.display_type.orElse (fun _ => ctx.display_type) } := by
  obtain ⟨c, f, d, dt, ds⟩ := v
  obtain ⟨c', f', d', dt', ds'⟩ := ctx
  unfold Expression.inheritFrom
  cases c <;> cases f <;> cases d <;> cases dt <;> cases ds <;>
    cases c' <;> cases f' <;> cases d' <;> cases dt' <;> cases ds' <;> rfl

theorem inheritFrom_idem (v ctx : Expression) :
    (v.inheritFrom ctx).inheritFrom ctx = v.inheritFrom ctx := by
  rw [inheritFrom_eq, inheritFrom_eq]
  cases v.command <;> cases v.frequency <;> cases v.data_name <;>
    cases v.date <;> cases v.display_type <;>
    cases ctx.command <;> cases ctx.frequency <;> cases ctx.data_name <;>
    cases ctx.date <;> cases ctx.display_type <;> rfl

theorem inheritFrom_new (ctx : Expression) :
    Expression.new.inheritFrom ctx = ctx := by
  rw [inheritFrom_eq]
  cases ctx
  rfl

/-- If bare resolution succeeds, the produced argument comes from one of
the six variant constructors applied to the token. -/
theorem fromStr_ok_ctor {env : Env} {s : String} {a : Arg}
    (h : Arg.fromStr env s = .ok a) :
    Arg.try_new_command env s = some a ∨
    Arg.try_new_function env s = some a ∨
    Arg.try_new_time_frequency env s = some a ∨
    Arg.try_new_data_name env s = some a ∨
    Arg.try_new_date env s = some a ∨
    Arg.try_new_render_context env s = some a := by
  unfold Arg.fromStr at h
  cases h1 : Arg.try_new_command env s <;> rw [h1] at h <;>
    simp [Option.orElse] at h
  case some => exact Or.inl (by rw [h])
  cases h2 : Arg.try_new_function env s <;> rw [h2] at h <;>
    simp [Option.orElse] at h
  case some => exact Or.inr (Or.inl (by rw [h]))
  cases h3 : Arg.try_new_time_frequency env s <;> rw [h3] at h <;>
    simp [Option.orElse] at h
  case some => exact Or.inr (Or.inr (Or.inl (by rw [h])))
  cases h4 : Arg.try_new_data_name env s <;> rw [h4] at h <;>
    simp [Option.orElse] at h
  case some => exact Or.inr (Or.inr (Or.inr (Or.inl (by rw [h]))))
  cases h5 : Arg.try_new_date env s <;> rw [h5] at h <;>
    simp [Option.orElse] at h
  case some => exact Or.inr (Or.inr (Or.inr (Or.inr (Or.inl (by rw [h])))))
  cases h6 : Arg.try_new_render_context env s <;> rw [h6] at h <;>
    simp at h
  case some => exact Or.inr (Or.inr (Or.inr (Or.inr (Or.inr (by rw [h])))))

/-- The six labels the labelled dispatch of `Arg::from_labelled_str`
recognizes, in source order. -/
def recognizedLabels : List String :=
  ["command", "function", "frequency", "name", "date", "display"]

theorem ctorFor_isSome_iff (env : Env) (name raw : String) :
    (Arg.ctorFor env name raw).isSome = true ↔ name ∈ recognizedLabels := by
  unfold Arg.ctorFor
  split_ifs with h1 h2 h3 h4 h5 h6 <;> simp_all [recognizedLabels]

/-- Full case analysis of `Arg::from_labelled_str`, shared by the
labelled-resolution claims. -/
theorem from_labelled_str_cases (env : Env) (name raw : String) :
    (Arg.from_labelled_str env name raw = .error (.unknownLabel name) ↔
      name ∉ recognizedLabels) ∧
    (Arg.from_labelled_str env name raw = .error (.invalidValue name raw) ↔
      (name ∈ recognizedLabels ∧ Arg.ctorFor env name raw = some none)) ∧
    (∀ a, Arg.from_labelled_str env name raw = .ok a ↔
      Arg.ctorFor env name raw = some (some a)) := by
  have hiff := ctorFor_isSome_iff env name raw
  unfold Arg.from_labelled_str
  cases h : Arg.ctorFor env name raw with
  | none =>
      rw [h] at hiff
      simp at hiff
      simp [hiff]
  | some o =>
      rw [h] at hiff
      simp at hiff
      cases o <;> simp [hiff]

/-! ## Concrete environment used by witnesses and counterexamples.
The token "both" is registered as a command and as a data-series name,
so bare resolution of it is ambiguous between two variants. -/

def envW : Env where
  commands := [("change", "Change"), ("avg_freq", "AvgFreq"), ("both", "Both Cmd")]
  functions := [("table", "table value"), ("both", "Both Fun")]
  dataNames := [("cat_purrs", "Cat Purrs"), ("both", "Both Data")]
  parseFrequency := fun s =>
    if s = "Daily" then some .daily
    else if s = "Weekly" then some .weekly
    else if s = "Monthly" then some .monthly
    else if s = "Quarterly" then some .quarterly
    else if s = "Yearly" then some .yearly
    else none
  parseDate := fun s => if s = "2022-02-04" then some ⟨2022, 2, 4⟩ else none
  parseDisplay := fun s =>
    if s = "Words" then some .words
    else if s = "Numbers" then some .numbers
    else none
  evaluate := fun _ => some "0"

/-! ## Claim C1 -/

/-- Claim C1: for a bare (unlabelled) token, resolution tries the six
variant constructors in the fixed priority order command > function >
frequency > data-series name > date > display style, and the first
successful match wins; in particular a token valid under two or more
variants resolves to the higher-priority one, and a token valid under
none fails. -/
theorem bare_token_priority (env : Env) (s : String) :
    (∀ a, Arg.try_new_command env s = some a → Arg.fromStr env s = .ok a) ∧
    (Arg.try_new_command env s = none →
      ∀ a, Arg.try_new_function env s = some a → Arg.fromStr env s = .ok a) ∧
    (Arg.try_new_command env s = none → Arg.try_new_function env s = none →
      ∀ a, Arg.try_new_time_frequency env s = some a →
        Arg.fromStr env s = .ok a) ∧
    (Arg.try_new_command env s = none → Arg.try_new_function env s = none →
      Arg.try_new_time_frequency env s = none →
      ∀ a, Arg.try_new_data_name env s = some a → Arg.fromStr env s = .ok a) ∧
    (Arg.try_new_command env s = none → Arg.try_new_function env s = none →
      Arg.try_new_time_frequency env s = none →
      Arg.try_new_data_name env s = none →
      ∀ a, Arg.try_new_date env s = some a → Arg.fromStr env s = .ok a) ∧
    (Arg.try_new_command env s = none → Arg.try_new_function env s = none →
      Arg.try_new_time_frequency env s = none →
      Arg.try_new_data_name env s = none → Arg.try_new_date env s = none →
      ∀ a, Arg.try_new_render_context env s = some a →
        Arg.fromStr env s = .ok a) ∧
    (Arg.try_new_command env s = none → Arg.try_new_function env s = none →
      Arg.try_new_time_frequency env s = none →
      Arg.try_new_data_name env s = none → Arg.try_new_date env s = none →
      Arg.try_new_render_context env s = none →
      Arg.fromStr env s = .error (.unresolvedToken s)) := by
  refine ⟨?_, ?_, ?_, ?_, ?_, ?_, ?_⟩ <;>
    · intros
      simp_all [Arg.fromStr, Option.orElse]

/-- Witness for C1: the token "both" is simultaneously a valid command
and a valid data-series name in `envW`; bare resolution returns the
command variant, the higher-priority one. -/
theorem bare_token_priority_witness :
    Arg.try_new_command envW "both" = some (.command "both") ∧
    Arg.try_new_data_name envW "both" = some (.dataName "both") ∧
    Arg.fromStr envW "both" = .ok (.command "both") :=
  ⟨by decide, by decide,
   (bare_token_priority envW "both").1 (.command "both") (by decide)⟩

/-! ## Claim C7 (corrected: six recognized labels, not five) -/

/-- Claim C7 (amended): with a label present, resolution dispatches
directly to the constructor bound to that label; it fails with
`UnknownLabel` exactly when the label is not one of the SIX recognized
names ("command", "function", "frequency", "name", "date", "display"),
fails with `InvalidValue` exactly when the label is recognized but the
raw value is rejected by that variant constructor, and succeeds exactly
when the dispatched constructor succeeds. -/
theorem labelled_dispatch_characterization (env : Env) (name raw : String) :
    (Arg.from_labelled_str env name raw = .error (.unknownLabel name) ↔
      name ∉ recognizedLabels) ∧
    (Arg.from_labelled_str env name raw = .error (.invalidValue name raw) ↔
      (name ∈ recognizedLabels ∧ Arg.ctorFor env name raw = some none)) ∧
    (∀ a, Arg.from_labelled_str env name raw = .ok a ↔
      Arg.ctorFor env name raw = some (some a)) :=
  from_labelled_str_cases env name raw

/-- Witness for C7's amended claim: a bogus label fails with
`UnknownLabel`, and the "name" label dispatches to the data-name
registry. -/
theorem labelled_dispatch_witness :
    Arg.from_labelled_str envW "bogus" "change" =
      .error (.unknownLabel "bogus") ∧
    Arg.from_labelled_str envW "name" "cat_purrs" =
      .ok (.dataName "cat_purrs") :=
  ⟨(labelled_dispatch_characterization envW "bogus" "change").1.mpr
      (by decide),
   ((labelled_dispatch_characterization envW "name" "cat_purrs").2.2
      (.dataName "cat_purrs")).mpr (by decide)⟩

/-- Counterexample for C7 as stated: the labelled dispatch recognizes
six pairwise-distinct label names, each of which resolves without an
`UnknownLabel` failure, so there is no set of five names outside of
which resolution fails with `UnknownLabel`. -/
theorem labelled_five_labels_counterexample :
    recognizedLabels.length = 6 ∧ recognizedLabels.Nodup ∧
    ∀ l ∈ recognizedLabels,
      Arg.from_labelled_str envW l "change" ≠ .error (.unknownLabel l) := by
  refine ⟨by decide, by decide, ?_⟩
  intro l hl
  have h := (from_labelled_str_cases envW l "change").1
  intro hcontra
  exact (h.mp hcontra) hl

/-! ## Claim C10 -/

/-- Any key stored by a successful registry search can be displayed. -/
theorem lookupReg_isSome_of_find {l : List (String × String)}
    {p : String × String} {s : String}
    (h : l.find? (fun q => q.1 == s) = some p) :
    (lookupReg l p.1).isSome = true := by
  have hmem : p ∈ l := List.mem_of_find?_eq_some h
  unfold lookupReg
  have : (l.find? (fun q => q.1 == p.1)).isSome = true := by
    rw [List.find?_isSome]
    exact ⟨p, hmem, by simp⟩
  cases hf : l.find? (fun q => q.1 == p.1) with
  | none => rw [hf] at this; simp at this
  | some q => simp

/-- Claim C10: every `Arg` produced by successful resolution — labelled
dispatch or bare parsing — can be displayed: the `Display for Arg` panic
branch ("Failed to Display Arg") is unreachable, because `Command` and
`DataName` variants only ever hold keys present in the `COMMANDS` and
`DATA_NAMES` registries and the remaining variants' display lookups
always succeed. -/
theorem resolved_arg_display_total (env : Env) (s name : String) (a : Arg)
    (h : Arg.fromStr env s = .ok a ∨
         Arg.from_labelled_str env name s = .ok a) :
    (Arg.display env a).isSome = true := by
  have hctor : Arg.try_new_command env s = some a ∨
      Arg.try_new_function env s = some a ∨
      Arg.try_new_time_frequency env s = some a ∨
      Arg.try_new_data_name env s = some a ∨
      Arg.try_new_date env s = some a ∨
      Arg.try_new_render_context env s = some a := by
    rcases h with h | h
    · exact fromStr_ok_ctor h
    · have := ((from_labelled_str_cases env name s).2.2 a).mp h
      unfold Arg.ctorFor at this
      split_ifs at this <;> simp_all
  rcases hctor with h | h | h | h | h | h
  · unfold Arg.try_new_command at h
    cases hf : env.commands.find? (fun p => p.1 == s) with
    | none => rw [hf] at h; simp at h
    | some p =>
        rw [hf] at h
        simp at h
        subst h
        simpa [Arg.display] using lookupReg_isSome_of_find hf
  · unfold Arg.try_new_function at h
    cases hf : lookupReg env.functions s <;> rw [hf] at h <;> simp at h
    simp [← h, Arg.display]
  · unfold Arg.try_new_time_frequency at h
    cases hf : env.parseFrequency s <;> rw [hf] at h <;> simp at h
    simp [← h, Arg.display]
  · unfold Arg.try_new_data_name at h
    cases hf : env.dataNames.find? (fun p => p.1 == s) with
    | none => rw [hf] at h; simp at h
    | some p =>
        rw [hf] at h
        simp at h
        subst h
        simpa [Arg.display] using lookupReg_isSome_of_find hf
  · unfold Arg.try_new_date at h
    cases hf : env.parseDate s <;> rw [hf] at h <;> simp at h
    simp [← h, Arg.display]
  · unfold Arg.try_new_render_context at h
    cases hf : env.parseDisplay s <;> rw [hf] at h <;> simp at h
    simp [← h, Arg.display]

/-- Witness for C10: the bare token "both" resolves to a command and
its display lookup succeeds. -/
theorem resolved_arg_display_total_witness :
    Arg.fromStr envW "both" = .ok (.command "both") ∧
    (Arg.display envW (.command "both")).isSome = true :=
  ⟨rfl,
   resolved_arg_display_total envW "both" "command" (.command "both")
     (Or.inl rfl)⟩

/-! ## Per-field behaviour of the set-if-unset operations -/

/-- The command carried by an argument, if it is a command argument. -/
def Arg.commandKey : Arg → Option String
  | .command c => some c
  | _ => none

/-- The frequency carried by an argument, if any. -/
def Arg.frequencyKey : Arg → Option TimeFrequency
  | .timeFrequency f => some f
  | _ => none

/-- The data-series name carried by an argument, if any. -/
def Arg.dataNameKey : Arg → Option String
  | .dataName n => some n
  | _ => none

/-- The date carried by an argument, if any. -/
def Arg.dateKey : Arg → Option NaiveDate
  | .date d => some d
  | _ => none

/-- The display style carried by an argument, if any. -/
def Arg.displayKey : Arg → Option RenderContext
  | .renderContext rc => some rc
  | _ => none

theorem fill_arg_command (e : Expression) (a : Arg) :
    (e.fill_arg a).command = e.command.orElse (fun _ => a.commandKey) := by
  obtain ⟨c, f, d, dt, ds⟩ := e
  cases a <;> cases c <;> cases f <;> cases d <;> cases dt <;> cases ds <;> rfl

theorem fill_arg_frequency (e : Expression) (a : Arg) :
    (e.fill_arg a).frequency = e.frequency.orElse (fun _ => a.frequencyKey) := by
  obtain ⟨c, f, d, dt, ds⟩ := e
  cases a <;> cases c <;> cases f <;> cases d <;> cases dt <;> cases ds <;> rfl

theorem fill_arg_data_name (e : Expression) (a : Arg) :
    (e.fill_arg a).data_name = e.data_name.orElse (fun _ => a.dataNameKey) := by
  obtain ⟨c, f, d, dt, ds⟩ := e
  cases a <;> cases c <;> cases f <;> cases d <;> cases dt <;> cases ds <;> rfl

theorem fill_arg_date (e : Expression) (a : Arg) :
    (e.fill_arg a).date = e.date.orElse (fun _ => a.dateKey) := by
  obtain ⟨c, f, d, dt, ds⟩ := e
  cases a <;> cases c <;> cases f <;> cases d <;> cases dt <;> cases ds <;> rfl

theorem fill_arg_display_type (e : Expression) (a : Arg) :
    (e.fill_arg a).display_type =
      e.display_type.orElse (fun _ => a.displayKey) := by
  obtain ⟨c, f, d, dt, ds⟩ := e
  cases a <;> cases c <;> cases f <;> cases d <;> cases dt <;> cases ds <;> rfl

/-- Folding `fill_arg` over a list of arguments: for any field projection
that `fill_arg` treats by set-if-unset, the fold keeps the start value
when set and otherwise the first argument of that field's kind. -/
theorem foldl_fill_generic {α : Type} (proj : Expression → Option α)
    (key : Arg → Option α)
    (hfill : ∀ e a, proj (e.fill_arg a) = (proj e).orElse (fun _ => key a)) :
    ∀ (args : List Arg) (e : Expression),
      proj (args.foldl Expression.fill_arg e) =
        (proj e).orElse (fun _ => args.findSome? key) := by
  intro args
  induction args with
  | nil =>
      intro e
      rw [List.foldl_nil, List.findSome?_nil]
      cases h : proj e <;> simp [Option.orElse, h]
  | cons a as ih =>
      intro e
      rw [List.foldl_cons, ih, hfill, List.findSome?_cons]
      cases hp : proj e <;> cases hk : key a <;>
        simp [Option.orElse, hp, hk]

/-! ## Claim C2 -/

/-- Claim C2: a selection field, once set, is never overwritten — a
subsequent `fill_arg` with any argument, or an inheritance pass under
any ambient selection, leaves the set value unchanged for each of the
five fields; and folding a sequence of arguments into a fresh selection
via repeated fill (the fold of `Function::try_new_expression`) keeps,
for each field, the first argument of that field's kind. -/
theorem selection_set_once (e ctx : Expression) (a : Arg) (args : List Arg)
    (groups : List ArgGroup) :
    (∀ x, e.command = some x →
      (e.fill_arg a).command = some x ∧ (e.inheritFrom ctx).command = some x) ∧
    (∀ x, e.frequency = some x →
      (e.fill_arg a).frequency = some x ∧
      (e.inheritFrom ctx).frequency = some x) ∧
    (∀ x, e.data_name = some x →
      (e.fill_arg a).data_name = some x ∧
      (e.inheritFrom ctx).data_name = some x) ∧
    (∀ x, e.date = some x →
      (e.fill_arg a).date = some x ∧ (e.inheritFrom ctx).date = some x) ∧
    (∀ x, e.display_type = some x →
      (e.fill_arg a).display_type = some x ∧
      (e.inheritFrom ctx).display_type = some x) ∧
    ((args.foldl Expression.fill_arg Expression.new).command =
        args.findSome? Arg.commandKey ∧
      (args.foldl Expression.fill_arg Expression.new).frequency =
        args.findSome? Arg.frequencyKey ∧
      (args.foldl Expression.fill_arg Expression.new).data_name =
        args.findSome? Arg.dataNameKey ∧
      (args.foldl Expression.fill_arg Expression.new).date =
        args.findSome? Arg.dateKey ∧
      (args.foldl Expression.fill_arg Expression.new).display_type =
        args.findSome? Arg.displayKey) ∧
    Function.try_new_expression groups =
      some (.expressions ((mutate groups).map
        (fun l => l.foldl Expression.fill_arg Expression.new))) := by
  refine ⟨?_, ?_, ?_, ?_, ?_, ⟨?_, ?_, ?_, ?_, ?_⟩, rfl⟩
  · intro x hx
    rw [fill_arg_command, inheritFrom_eq, hx]
    exact ⟨rfl, rfl⟩
  · intro x hx
    rw [fill_arg_frequency, inheritFrom_eq, hx]
    exact ⟨rfl, rfl⟩
  · intro x hx
    rw [fill_arg_data_name, inheritFrom_eq, hx]
    exact ⟨rfl, rfl⟩
  · intro x hx
    rw [fill_arg_date, inheritFrom_eq, hx]
    exact ⟨rfl, rfl⟩
  · intro x hx
    rw [fill_arg_display_type, inheritFrom_eq, hx]
    exact ⟨rfl, rfl⟩
  · rw [foldl_fill_generic Expression.command Arg.commandKey fill_arg_command]
    rfl
  · rw [foldl_fill_generic Expression.frequency Arg.frequencyKey
        fill_arg_frequency]
    rfl
  · rw [foldl_fill_generic Expression.data_name Arg.dataNameKey
        fill_arg_data_name]
    rfl
  · rw [foldl_fill_generic Expression.date Arg.dateKey fill_arg_date]
    rfl
  · rw [foldl_fill_generic Expression.display_type Arg.displayKey
        fill_arg_display_type]
    rfl

/-- Witness for C2: a selection whose command is "change" keeps it under
a fill with a different command and under inheritance from an ambient
with a different command; and the fold of two conflicting commands keeps
the first. -/
theorem selection_set_once_witness :
    ({ command := some "change" } : Expression).command = some "change" ∧
    (({ command := some "change" } : Expression).fill_arg
        (.command "avg_freq")).command = some "change" ∧
    (({ command := some "change" } : Expression).inheritFrom
        { command := some "avg_freq" }).command = some "change" ∧
    ([Arg.command "change", Arg.command "avg_freq"].foldl
        Expression.fill_arg Expression.new).command = some "change" := by
  have h := selection_set_once { command := some "change" }
    { command := some "avg_freq" } (.command "avg_freq")
    [Arg.command "change", Arg.command "avg_freq"] []
  obtain ⟨h1, -, -, -, -, ⟨h6, -⟩, -⟩ := h
  have hk := h1 "change" rfl
  exact ⟨rfl, hk.1, hk.2, by rw [h6]; rfl⟩

/-! ## Claim C3 -/

/-- Claim C3: rendering a scope-tree node copies down into its own
selection exactly those of the five fields that the node leaves unset
and the ambient has set — the enriched selection holds, field by field,
the node's own value when set and the ambient's value otherwise — and
the rendered node carries exactly this enriched selection, so a field
the node's selection already set is never changed by rendering under any
ambient, even one with a different value for that field. -/
theorem node_render_inheritance (env : Env) (v ctx : Expression)
    (children : List Component) :
    ((v.inheritFrom ctx).command = v.command.orElse (fun _ => ctx.command) ∧
     (v.inheritFrom ctx).frequency =
       v.frequency.orElse (fun _ => ctx.frequency) ∧
     (v.inheritFrom ctx).data_name =
       v.data_name.orElse (fun _ => ctx.data_name) ∧
     (v.inheritFrom ctx).date = v.date.orElse (fun _ => ctx.date) ∧
     (v.inheritFrom ctx).display_type =
       v.display_type.orElse (fun _ => ctx.display_type)) ∧
    (∀ r, renderC env (.node v children) ctx = some r →
      ∃ cs, r.1 = .node (v.inheritFrom ctx) cs) := by
  constructor
  · rw [inheritFrom_eq]
    exact ⟨rfl, rfl, rfl, rfl, rfl⟩
  · intro r h
    simp only [renderC] at h
    cases hc : renderChildren env children (v.inheritFrom ctx) with
    | none => rw [hc] at h; exact absurd h (by simp)
    | some p =>
        rw [hc] at h
        simp at h
        exact ⟨p.1, by rw [← h]⟩

/-- Concrete node selection for the C3 witness. -/
def vC3 : Expression := { command := some "change" }

/-- Concrete ambient selection for the C3 witness, carrying a different
command. -/
def ctxC3 : Expression := { command := some "avg_freq", frequency := some .weekly }

/-- Witness for C3: a node whose command is "change", rendered under an
ambient whose command is "avg_freq" and whose frequency is Weekly,
keeps its command and inherits only the unset frequency. -/
theorem node_render_inheritance_witness :
    renderC envW (.node vC3 []) ctxC3 =
      some (.node (vC3.inheritFrom ctxC3) [], "") ∧
    (vC3.inheritFrom ctxC3).command = some "change" ∧
    (vC3.inheritFrom ctxC3).frequency = some .weekly ∧
    (∃ cs, (Component.node (vC3.inheritFrom ctxC3) ([] : List Component), "").1
      = Component.node (vC3.inheritFrom ctxC3) cs) := by
  have hrender : renderC envW (.node vC3 []) ctxC3 =
      some (.node (vC3.inheritFrom ctxC3) [], "") := by
    simp [renderC, renderChildren]
  exact ⟨hrender, by decide, by decide,
    (node_render_inheritance envW vC3 ctxC3 []).2 _ hrender⟩

/-! ## Claim C5 -/

/-- Claim C5: every table cell at (row, col) is evaluated under
`base ⊕ row ⊕ col`, where `⊕` sets each field only if unset in its left
operand and the row merge is applied before the column merge;
consequently any field set after the row merge — in particular one set
by the row variable — is never overridden by the column variable. -/
theorem table_cell_merge (t : Table) (row col : ExpressionVariable) :
    Table.cellCtx t row col = (t.ctx.addVar row).addVar col ∧
    (∀ (e : Expression) (v : ExpressionVariable),
      (e.addVar v).command = e.command.orElse (fun _ => v.commandKey) ∧
      (e.addVar v).frequency = e.frequency.orElse (fun _ => v.frequencyKey) ∧
      (e.addVar v).data_name = e.data_name.orElse (fun _ => v.dataNameKey) ∧
      (e.addVar v).date = e.date.orElse (fun _ => v.dateKey) ∧
      (e.addVar v).display_type =
        e.display_type.orElse (fun _ => v.displayKey)) ∧
    (∀ x, (t.ctx.addVar row).command = some x →
      (Table.cellCtx t row col).command = some x) ∧
    (∀ x, (t.ctx.addVar row).frequency = some x →
      (Table.cellCtx t row col).frequency = some x) ∧
    (∀ x, (t.ctx.addVar row).data_name = some x →
      (Table.cellCtx t row col).data_name = some x) ∧
    (∀ x, (t.ctx.addVar row).date = some x →
      (Table.cellCtx t row col).date = some x) ∧
    (∀ x, (t.ctx.addVar row).display_type = some x →
      (Table.cellCtx t row col).display_type = some x) := by
  refine ⟨rfl,
    fun e v => ⟨fill_arg_command e v, fill_arg_frequency e v,
      fill_arg_data_name e v, fill_arg_date e v, fill_arg_display_type e v⟩,
    ?_, ?_, ?_, ?_, ?_⟩
  · intro x hx
    unfold Expression.addVar at hx
    unfold Table.cellCtx Expression.addVar
    rw [fill_arg_command _ col, hx]
    rfl
  · intro x hx
    unfold Expression.addVar at hx
    unfold Table.cellCtx Expression.addVar
    rw [fill_arg_frequency _ col, hx]
    rfl
  · intro x hx
    unfold Expression.addVar at hx
    unfold Table.cellCtx Expression.addVar
    rw [fill_arg_data_name _ col, hx]
    rfl
  · intro x hx
    unfold Expression.addVar at hx
    unfold Table.cellCtx Expression.addVar
    rw [fill_arg_date _ col, hx]
    rfl
  · intro x hx
    unfold Expression.addVar at hx
    unfold Table.cellCtx Expression.addVar
    rw [fill_arg_display_type _ col, hx]
    rfl

/-- Concrete table for the C5 witness: the row variable sets the
command, the column variable carries a different command. -/
def tC5 : Table :=
  ⟨[.command "change"], [.command "avg_freq"], Expression.new⟩

/-- Witness for C5: with base unset, row variable command "change" and
column variable command "avg_freq", the cell selection's command is the
row's "change". -/
theorem table_cell_merge_witness :
    (tC5.ctx.addVar (.command "change")).command = some "change" ∧
    (Table.cellCtx tC5 (.command "change") (.command "avg_freq")).command =
      some "change" :=
  ⟨by decide,
   (table_cell_merge tC5 (.command "change") (.command "avg_freq")).2.2.1
     "change" (by decide)⟩

/-! ## Claim C9 -/

theorem sizeOf_node_children (v : Expression) (children : List Component) :
    sizeOf children < sizeOf (Component.node v children) := by
  simp

theorem sizeOf_cons_head (c : Component) (cs : List Component) :
    sizeOf c < sizeOf (c :: cs) := by
  simp only [List.cons.sizeOf_spec]
  omega

theorem sizeOf_cons_tail (c : Component) (cs : List Component) :
    sizeOf cs < sizeOf (c :: cs) := by
  simp only [List.cons.sizeOf_spec]
  omega

/-- Joint strong induction for render idempotence: a second render of
the post-render state, under the same ambient selection, reproduces the
state and the output string. -/
theorem render_idem_aux (env : Env) :
    ∀ n : Nat,
      (∀ c : Component, sizeOf c < n → ∀ ctx r,
        renderC env c ctx = some r → renderC env r.1 ctx = some r) ∧
      (∀ l : List Component, sizeOf l < n → ∀ ctx r,
        renderChildren env l ctx = some r →
          renderChildren env r.1 ctx = some r) := by
  intro n
  induction n using Nat.strong_induction_on with
  | _ n ih =>
    constructor
    · intro c hc ctx r h
      cases c with
      | text s =>
          simp only [renderC] at h
          simp at h
          rw [← h]
          simp [renderC]
      | node v children =>
          simp only [renderC] at h
          cases hrc : renderChildren env children (v.inheritFrom ctx) with
          | none => rw [hrc] at h; simp at h
          | some p =>
              rw [hrc] at h
              simp at h
              have hlist := (ih (sizeOf (Component.node v children)) hc).2
                children (sizeOf_node_children v children)
                (v.inheritFrom ctx) p hrc
              rw [← h]
              simp only [renderC, inheritFrom_idem]
              rw [hlist]
      | exprsFn es =>
          simp only [renderC] at h
          cases hm : mapO (fun e => e.renderWith env ctx) es with
          | none => rw [hm] at h; simp at h
          | some ss =>
              rw [hm] at h
              simp at h
              rw [← h]
              simp only [renderC]
              rw [hm]
      | tableFn t =>
          simp only [renderC] at h
          cases hm : tableTryFrom env t with
          | none => rw [hm] at h; simp at h
          | some st =>
              rw [hm] at h
              simp at h
              rw [← h]
              simp only [renderC]
              rw [hm]
    · intro l hl ctx r h
      cases l with
      | nil =>
          simp only [renderChildren] at h
          simp at h
          rw [← h]
          simp [renderChildren]
      | cons c cs =>
          simp only [renderChildren] at h
          cases h1 : renderC env c ctx with
          | none => rw [h1] at h; simp at h
          | some p =>
              rw [h1] at h
              cases h2 : renderChildren env cs ctx with
              | none => rw [h2] at h; simp at h
              | some q =>
                  rw [h2] at h
                  simp at h
                  have hc := (ih (sizeOf (c :: cs)) hl).1 c
                    (sizeOf_cons_head c cs) ctx p h1
                  have hcs := (ih (sizeOf (c :: cs)) hl).2 cs
                    (sizeOf_cons_tail c cs) ctx q h2
                  rw [← h]
                  simp only [renderChildren]
                  rw [hc, hcs]

/-- Claim C9: rendering the same scope-tree node a second time under the
same ambient selection re-runs the inheritance pass idempotently and
produces the same result string and the same post-render state as the
first render, even though the inheritance pass mutates the node's own
selection in place. -/
theorem render_idempotent (env : Env) (c : Component) (ctx : Expression)
    (r : Component × String) (h : renderC env c ctx = some r) :
    renderC env r.1 ctx = some r :=
  ((render_idem_aux env (sizeOf c + 1)).1 c (Nat.lt_succ_self _) ctx r h)

/-- Ambient selection for the C9 witness. -/
def ctxC9 : Expression := { frequency := some .weekly }

/-- Witness for C9: a node with an unset selection and one text child,
rendered twice under the same ambient, yields the same mutated node and
the same output "x" both times. -/
theorem render_idempotent_witness :
    renderC envW (.node Expression.new [.text "x"]) ctxC9 =
      some (.node ctxC9 [.text "x"], "x") ∧
    renderC envW (.node ctxC9 [.text "x"]) ctxC9 =
      some (.node ctxC9 [.text "x"], "x") := by
  have h1 : renderC envW (.node Expression.new [.text "x"]) ctxC9 =
      some (.node ctxC9 [.text "x"], "x") := by
    simp [renderC, renderChildren, inheritFrom_new]
  exact ⟨h1, render_idempotent envW _ _ _ h1⟩

/-! ## Claim C4 -/

theorem mapO_map {f : β → Option γ} {g : α → β} :
    ∀ l : List α, mapO f (l.map g) = mapO (fun a => f (g a)) l := by
  intro l
  induction l with
  | nil => rfl
  | cons a as ih => simp only [List.map_cons, mapO, ih]

/-- The child-render loop of `Node::render` is the fallible map of the
child renders, pairing the post-render children with the concatenated
output. -/
theorem renderChildren_eq_mapO (env : Env) (l : List Component)
    (ctx : Expression) :
    renderChildren env l ctx =
      (mapO (fun c => renderC env c ctx) l).map
        (fun ps => (ps.map Prod.fst, joinAll (ps.map Prod.snd))) := by
  induction l with
  | nil => simp [renderChildren, mapO, joinAll]
  | cons c cs ih =>
      simp only [renderChildren, mapO, ih]
      cases h1 : renderC env c ctx with
      | none => rfl
      | some p =>
          obtain ⟨c', str⟩ := p
          cases h2 : mapO (fun x => renderC env x ctx) cs with
          | none => rfl
          | some ps => simp [joinAll]

theorem forall2_exists_snd {α β γ : Type} {f : α → Option (β × γ)}
    {l : List α} {ps : List (β × γ)}
    (h : List.Forall₂ (fun a p => f a = some p) l ps) :
    List.Forall₂ (fun a s => ∃ c, f a = some (c, s)) l (ps.map Prod.snd) := by
  induction h with
  | nil => exact List.Forall₂.nil
  | cons h1 _ ih => exact List.Forall₂.cons ⟨_, by rw [h1]⟩ ih

/-- Rendering a node: run the inheritance pass, then map the child loop,
pairing the enriched node with the concatenated output. -/
theorem renderC_node (env : Env) (v : Expression) (children : List Component)
    (ctx : Expression) :
    renderC env (.node v children) ctx =
      (renderChildren env children (v.inheritFrom ctx)).map
        (fun p => (.node (v.inheritFrom ctx) p.1, p.2)) := by
  simp only [renderC]
  cases h : renderChildren env children (v.inheritFrom ctx) with
  | none => rfl
  | some p =>
      obtain ⟨a, b⟩ := p
      rfl

/-- Claim C4: lowering a Block clause yields a parent node holding one
replica of the lowered child subtree per selection produced by the
block's own expander step, and rendering it renders that subtree exactly
once per produced selection — each replica a node carrying one of the
selections — with the outputs concatenated in the declared order of the
selections. -/
theorem block_replication (env : Env) (groups : List ArgGroup)
    (clauses : List Clause) (comp : Component) (ctx : Expression)
    (hl : Clause.to_component (.block groups clauses) = some comp) :
    ∃ children, Clause.to_components clauses = some children ∧
      comp = .node Expression.new
        ((expressionsOfGroups groups).map (fun e => .node e children)) ∧
      renderC env comp ctx =
        (mapO (fun e => renderC env (Component.node e children) ctx)
            (expressionsOfGroups groups)).map
          (fun ps => (.node ctx (ps.map Prod.fst),
            joinAll (ps.map Prod.snd))) ∧
      (∀ r, renderC env comp ctx = some r →
        ∃ parts : List String,
          r.2 = joinAll parts ∧
          parts.length = (expressionsOfGroups groups).length ∧
          List.Forall₂
            (fun e part => ∃ c',
              renderC env (Component.node e children) ctx = some (c', part))
            (expressionsOfGroups groups) parts) := by
  simp only [Clause.to_component] at hl
  cases hcs : Clause.to_components clauses with
  | none => rw [hcs] at hl; exact absurd hl (by simp)
  | some children =>
      rw [hcs] at hl
      simp at hl
      refine ⟨children, rfl, hl.symm, ?_⟩
      have hrender : renderC env comp ctx =
          (mapO (fun e => renderC env (Component.node e children) ctx)
              (expressionsOfGroups groups)).map
            (fun ps => (.node ctx (ps.map Prod.fst),
              joinAll (ps.map Prod.snd))) := by
        rw [← hl, renderC_node, inheritFrom_new, renderChildren_eq_mapO,
          mapO_map, Option.map_map]
        rfl
      refine ⟨hrender, ?_⟩
      intro r hr
      rw [hrender] at hr
      cases hm : mapO (fun e => renderC env (Component.node e children) ctx)
          (expressionsOfGroups groups) with
      | none => rw [hm] at hr; exact absurd hr (by simp)
      | some ps =>
          rw [hm] at hr
          simp at hr
          refine ⟨ps.map Prod.snd, by rw [← hr], ?_, ?_⟩
          · rw [List.length_map, mapO_length hm]
          · exact forall2_exists_snd (mapO_forall2 hm)

/-- The C4 witness block header: a named collection binding the
frequencies Weekly and Monthly. -/
def gsC4 : List ArgGroup :=
  [.namedCollection "frequency" [.timeFrequency .weekly, .timeFrequency .monthly]]

/-- The lowered form of the C4 witness block: one replica of the single
Text("x") child per produced selection. -/
def compC4 : Component :=
  .node Expression.new
    [.node { frequency := some .weekly } [.text "x"],
     .node { frequency := some .monthly } [.text "x"]]

/-- Witness for C4: the block `{frequency: [Weekly, Monthly]}` with the
single child Text("x") lowers to two replicas and renders as "xx" — one
copy of "x" under frequency=Weekly followed by one under
frequency=Monthly. -/
theorem block_replication_witness :
    Clause.to_component (.block gsC4 [.text "x"]) = some compC4 ∧
    expressionsOfGroups gsC4 =
      [{ frequency := some TimeFrequency.weekly },
       { frequency := some TimeFrequency.monthly }] ∧
    renderC envW compC4 Expression.new = some (compC4, "xx") ∧
    (∃ children, Clause.to_components [.text "x"] = some children ∧
      compC4 = .node Expression.new
        ((expressionsOfGroups gsC4).map (fun e => .node e children)) ∧
      renderC envW compC4 Expression.new =
        (mapO (fun e => renderC envW (Component.node e children)
            Expression.new) (expressionsOfGroups gsC4)).map
          (fun ps => (.node Expression.new (ps.map Prod.fst),
            joinAll (ps.map Prod.snd))) ∧
      (∀ r, renderC envW compC4 Expression.new = some r →
        ∃ parts : List String,
          r.2 = joinAll parts ∧
          parts.length = (expressionsOfGroups gsC4).length ∧
          List.Forall₂
            (fun e part => ∃ c', renderC envW (Component.node e children)
              Expression.new = some (c', part))
            (expressionsOfGroups gsC4) parts)) := by
  have hl : Clause.to_component (.block gsC4 [.text "x"]) = some compC4 := by
    simp only [Clause.to_component, Clause.to_components]
    rfl
  refine ⟨hl, rfl, ?_, block_replication envW gsC4 [.text "x"] compC4
    Expression.new hl⟩
  simp [compC4, renderC, renderChildren, Expression.inheritFrom,
    Expression.new, joinAll]

/-! ## Claim C6 (corrected: cols.len()+1 separator cells, not rows.len()+1) -/

/-- Claim C6 (amended): for a table whose row axis has length R and
column axis length C (independent, possibly different), a successful
render consists of a header row with exactly C+1 cells — a placeholder
corner cell followed by the column labels in declared order — a
separator row with exactly C+1 (cols.len()+1) cells, and one body row
per row-axis entry. -/
theorem table_shape (env : Env) (t : Table) (s : String)
    (h : tableTryFrom env t = some s) :
    ∃ heads rowStrs,
      heads.length = t.cols.length ∧
      List.Forall₂ (fun c hs => ∃ d, Arg.display env c = some d ∧
        hs = " " ++ d ++ " |") t.cols heads ∧
      rowStrs.length = t.rows.length ∧
      List.Forall₂ (fun r rs => tableRow env t r = some rs) t.rows rowStrs ∧
      s = "\n| _ |" ++ joinAll heads ++ "\n|"
        ++ joinAll (List.replicate (t.cols.length + 1) " --- |")
        ++ joinAll rowStrs ++ "\n" := by
  unfold tableTryFrom at h
  cases h1 : mapO (fun c => (Arg.display env c).map
      (fun x => " " ++ x ++ " |")) t.cols with
  | none => rw [h1] at h; exact absurd h (by simp)
  | some heads =>
      rw [h1] at h
      cases h2 : mapO (tableRow env t) t.rows with
      | none => rw [h2] at h; exact absurd h (by simp)
      | some rowStrs =>
          rw [h2] at h
          simp at h
          refine ⟨heads, rowStrs, mapO_length h1, ?_, mapO_length h2,
            mapO_forall2 h2, h.symm⟩
          refine List.Forall₂.imp ?_ (mapO_forall2 h1)
          intro c hs hchs
          cases hd : Arg.display env c with
          | none => rw [hd] at hchs; exact absurd hchs (by simp)
          | some d =>
              rw [hd] at hchs
              simp at hchs
              exact ⟨d, rfl, hchs.symm⟩

/-- Concrete table for the C6 theorems: one row-axis entry, two
column-axis entries. -/
def tC6 : Table :=
  ⟨[.command "change"], [.timeFrequency .weekly, .timeFrequency .monthly],
   Expression.new⟩

/-- The string `tC6` renders to under `envW`. -/
def sC6 : String :=
  "\n| _ | Weekly | Monthly |\n| --- | --- | --- |\n| Change | 0 | 0 |\n"

/-- Witness for C6's amended claim, at a table with R = 1 and C = 2. -/
theorem table_shape_witness :
    tableTryFrom envW tC6 = some sC6 ∧
    ∃ heads rowStrs,
      heads.length = tC6.cols.length ∧
      List.Forall₂ (fun c hs => ∃ d, Arg.display envW c = some d ∧
        hs = " " ++ d ++ " |") tC6.cols heads ∧
      rowStrs.length = tC6.rows.length ∧
      List.Forall₂ (fun r rs => tableRow envW tC6 r = some rs)
        tC6.rows rowStrs ∧
      sC6 = "\n| _ |" ++ joinAll heads ++ "\n|"
        ++ joinAll (List.replicate (tC6.cols.length + 1) " --- |")
        ++ joinAll rowStrs ++ "\n" :=
  ⟨rfl, table_shape envW tC6 sC6 rfl⟩

/-- Count of (possibly overlapping) occurrences of a pattern in a
character list. -/
def countOcc (pat : List Char) : List Char → Nat
  | [] => 0
  | c :: rest => (if pat.isPrefixOf (c :: rest) then 1 else 0) + countOcc pat rest

/-- Counterexample for C6 as stated: the same table with one row-axis
entry and two column-axis entries renders successfully with three
" --- |" separator cells, not rows.len()+1 = 2 of them. -/
theorem table_separator_counterexample :
    tC6.rows.length + 1 = 2 ∧
    tableTryFrom envW tC6 = some sC6 ∧
    countOcc " --- |".toList sC6.toList = 3 ∧
    (3 : Nat) ≠ tC6.rows.length + 1 := by
  exact ⟨rfl, rfl, by decide, by decide⟩

/-! ## Claim C8 -/

theorem tryFroms_none_of_mem (env : Env) {rc : RawClause} :
    ∀ {cs : List RawClause}, rc ∈ cs → Clause.tryFrom env rc = none →
      Clause.tryFroms env cs = none := by
  intro cs
  induction cs with
  | nil => intro h; cases h
  | cons c cs ih =>
      intro hmem hnone
      rcases List.mem_cons.mp hmem with h | h
      · subst h
        simp only [Clause.tryFroms, hnone]
      · simp only [Clause.tryFroms, ih h hnone]
        cases Clause.tryFrom env c <;> rfl

/-- Claim C8: the first error aborts the enclosing operation.  A failed
cell calculation makes the whole table render fail (no partial table);
a failed argument group makes the conversion of its enclosing Function,
Named Function or Block clause fail; and a failed subclause makes the
conversion of its enclosing Block fail. -/
theorem fail_fast (env : Env) (t : Table) (row col : ExpressionVariable)
    (g : RawArgGroup) (gs : List RawArgGroup) (cs : List RawClause)
    (name : String) (rc : RawClause) :
    (row ∈ t.rows → col ∈ t.cols →
      env.evaluate (t.cellCtx row col) = none → tableTryFrom env t = none) ∧
    (g ∈ gs → ArgGroup.tryFrom env g = none →
      Clause.tryFrom env (.function gs) = none ∧
      Clause.tryFrom env (.namedFunction name gs) = none ∧
      Clause.tryFrom env (.block gs cs) = none) ∧
    (rc ∈ cs → Clause.tryFrom env rc = none →
      Clause.tryFrom env (.block gs cs) = none) := by
  refine ⟨?_, ?_, ?_⟩
  · intro hrow hcol hcell
    have hcells : mapO (fun c => (env.evaluate (t.cellCtx row c)).map
        (fun x => " " ++ x ++ " |")) t.cols = none := by
      refine mapO_none_of_mem hcol ?_
      rw [hcell]
      rfl
    have hrowfail : tableRow env t row = none := by
      unfold tableRow
      rw [hcells]
      cases Arg.display env row <;> rfl
    have hrows : mapO (tableRow env t) t.rows = none :=
      mapO_none_of_mem hrow hrowfail
    unfold tableTryFrom
    rw [hrows]
    cases mapO (fun c => (Arg.display env c).map
        (fun x => " " ++ x ++ " |")) t.cols <;> rfl
  · intro hmem hnone
    have hgs : mapO (ArgGroup.tryFrom env) gs = none :=
      mapO_none_of_mem hmem hnone
    refine ⟨?_, ?_, ?_⟩
    · simp [Clause.tryFrom, hgs]
    · simp [Clause.tryFrom, hgs]
    · simp only [Clause.tryFrom, hgs]
  · intro hmem hnone
    have hcs : Clause.tryFroms env cs = none :=
      tryFroms_none_of_mem env hmem hnone
    simp only [Clause.tryFrom, hcs]
    cases mapO (ArgGroup.tryFrom env) gs <;> rfl

/-- Environment whose calculation engine always fails, for the C8
witness. -/
def envFail : Env := { envW with evaluate := fun _ => none }

/-- Concrete table for the C8 witness. -/
def tC8 : Table :=
  ⟨[.command "change"], [.timeFrequency .weekly], Expression.new⟩

/-- Witness for C8: a failing cell calculation aborts the whole table
render, and an unresolvable bare token aborts the conversion of its
enclosing clause. -/
theorem fail_fast_witness :
    envFail.evaluate (tC8.cellCtx (.command "change")
      (.timeFrequency .weekly)) = none ∧
    tableTryFrom envFail tC8 = none ∧
    ArgGroup.tryFrom envW (.arg "nonsense") = none ∧
    Clause.tryFrom envW (.function [.arg "nonsense"]) = none := by
  refine ⟨rfl, ?_, rfl, ?_⟩
  · exact (fail_fast envFail tC8 (.command "change") (.timeFrequency .weekly)
      (.arg "nonsense") [] [] "x" (.text "t")).1
      (by decide) (by decide) rfl
  · exact ((fail_fast envW tC8 (.command "change") (.timeFrequency .weekly)
      (.arg "nonsense") [.arg "nonsense"] [] "x" (.text "t")).2.1
      (by decide) rfl).1

end Reports
